import Mathlib

/-!
Verification of the frontend glue code of the subtitle-search repository.

Strings are embedded as `List Char`.  The TypeScript helpers of
`ResultItem.vue` (formatTime, highlightText), the `App.vue` search handler,
the clip-generation handlers and the vite proxy configuration are translated
below; network interaction is embedded by passing the outcome of the single
HTTP call a handler makes as an explicit `Except` argument, and by recording
the requests issued and the `alert` / `console.error` effects produced as
ordinary data in the handler's result.
-/

namespace Subtitles

/-- Lower-casing of a character list; embeds the effect of a JavaScript
case-insensitive (`i` flag) regex comparison, ASCII-level. -/
def lc (s : List Char) : List Char := s.map Char.toLower

/-- `rawPre p s` : `p` is a prefix of `s` (exact characters). -/
def rawPre : List Char → List Char → Bool
  | [], _ => true
  | _ :: _, [] => false
  | a :: as, b :: bs => a == b && rawPre as bs

/-- `ciPre q s` : `q` is a case-insensitive prefix of `s`. -/
def ciPre : List Char → List Char → Bool
  | [], _ => true
  | _ :: _, [] => false
  | a :: as, b :: bs => a.toLower == b.toLower && ciPre as bs

/-- Number of positions of `s` at which `q` matches case-insensitively. -/
def ciOccCount (q s : List Char) : Nat :=
  (List.range s.length).countP (fun i => ciPre q (s.drop i))

/-- Number of positions of `s` at which `p` occurs exactly. -/
def rawOccCount (p s : List Char) : Nat :=
  (List.range s.length).countP (fun i => rawPre p (s.drop i))

/-- `q` has at least one case-insensitive occurrence in `s`. -/
def occursCI (q s : List Char) : Prop := ∃ i, ciPre q (s.drop i) = true

/-- Boolean case-insensitive substring test (the executable counterpart of
`occursCI`). -/
def ciSub (q : List Char) : List Char → Bool
  | [] => ciPre q []
  | c :: rest => ciPre q (c :: rest) || ciSub q rest

/-- The opening marker inserted by `highlightText`
(`<span class="highlight">`, ResultItem.vue line 137). -/
def spanOpen : List Char := "<span class=\"highlight\">".data

/-- The closing marker inserted by `highlightText` (`</span>`). -/
def spanClose : List Char := "</span>".data

/-- One segment of the output of the global-replace scan: a character copied
through unchanged, or a matched block (kept with its original casing, the
`$1` back-reference) that gets wrapped in the markers. -/
inductive Seg where
  | plain (c : Char)
  | wrapped (m : List Char)
deriving DecidableEq, Repr

/-- Render a segment as `highlightText` emits it. -/
def renderSeg : Seg → List Char
  | .plain c => [c]
  | .wrapped m => spanOpen ++ m ++ spanClose

/-- Render a segment without the inserted markers. -/
def eraseSeg : Seg → List Char
  | .plain c => [c]
  | .wrapped m => m

/-- The left-to-right scan of JavaScript `text.replace(regex, ...)` with a
`g`-flagged, `i`-flagged regex whose pattern is the escaped (hence literal)
query, written with a structural fuel argument (one unit per consumed
character suffices, and `segsOf` below supplies `t.length`, so the
fuel-exhausted branch is unreachable): at each position, if the query
matches case-insensitively the match is consumed and wrapped, otherwise one
character is copied and the scan moves on.  Matches are non-overlapping and
leftmost, exactly as in `String.prototype.replace`. -/
def segsOfF (q : List Char) : Nat → List Char → List Seg
  | _, [] => []
  | 0, _ :: _ => []
  | fuel + 1, c :: rest =>
    if ciPre q (c :: rest) then
      Seg.wrapped (c :: rest.take (q.length - 1))
        :: segsOfF q fuel (rest.drop (q.length - 1))
    else
      Seg.plain c :: segsOfF q fuel rest

/-- The scan of the whole text. -/
def segsOf (q t : List Char) : List Seg := segsOfF q t.length t

/-- `highlightText` (ResultItem.vue lines 133–138): returns `text` unchanged
when `text` or `query` is empty (the `!text || !query` guard), otherwise
performs the global case-insensitive literal replace, wrapping each match in
`<span class="highlight"> ... </span>`.  `escapeRegExp` (lines 146–148)
escapes every regex metacharacter of the query, so the compiled regex
matches exactly the literal query string; the embedding therefore matches
the query literally. -/
def highlightText (text q : List Char) : List Char :=
  if text = [] ∨ q = [] then text
  else (segsOf q text).flatMap renderSeg

/-! ### formatTime (ResultItem.vue lines 124–131) -/

/-- JavaScript `str.split(sep)` for a one-character separator: splits at
every occurrence, keeping empty fields; `"".split(sep)` is `[""]`. -/
def jsSplit (sep : Char) : List Char → List (List Char)
  | [] => [[]]
  | c :: rest =>
    if c = sep then [] :: jsSplit sep rest
    else
      match jsSplit sep rest with
      | [] => [[c]]
      | f :: fs => (c :: f) :: fs

/-- First element of a field list (`parts[0]`); `jsSplit` never returns `[]`,
so the default is never consulted. -/
def firstField : List (List Char) → List Char
  | [] => []
  | f :: _ => f

/-- `formatTime` (ResultItem.vue lines 124–131): splits on `:`; with at
least two fields it returns `` `${parts[1]}:${parts[2].split('.')[0]}` ``,
otherwise the input unchanged.  When the split has exactly two fields,
`parts[2]` is `undefined` and `.split` on it throws a TypeError; that
evaluation failure is embedded as `none`. -/
def formatTime (timeStr : List Char) : Option (List Char) :=
  match jsSplit ':' timeStr with
  | _ :: p1 :: p2 :: _ => some (p1 ++ ':' :: firstField (jsSplit '.' p2))
  | [_, _] => none
  | _ => some timeStr

/-! ### App.vue search handler and ResultItem.vue generation handlers -/

/-- One search-result record; the fields the frontend reads. -/
structure SubRec where
  season : Nat
  episode : Nat
  start_time : List Char
  end_time : List Char
  chinese_text : List Char
  english_text : List Char
deriving DecidableEq, Repr

/-- The `App.vue` reactive state touched by `performSearch`. -/
structure AppState where
  results : List SubRec
  loading : Bool
deriving DecidableEq, Repr

/-- The `ResultItem.vue` reactive state touched by the generation handlers. -/
structure ItemState where
  audioUrl : List Char
  generating : Bool
  videoUrl : List Char
  generatingVideo : Bool
deriving DecidableEq, Repr

/-- Observable user-facing effects of a handler run: an `alert(m)` call or a
`console.error` log. -/
inductive Effect where
  | alertMsg (m : List Char)
  | consoleError
deriving DecidableEq, Repr

/-- The alert messages among a list of effects. -/
def alertsOf : List Effect → List (List Char)
  | [] => []
  | .alertMsg m :: es => m :: alertsOf es
  | .consoleError :: es => alertsOf es

/-- An HTTP request issued by a handler, identified by path and payload. -/
inductive Request where
  | search (q : List Char)
  | post (path : List Char) (season episode : Nat)
      (start_time end_time : List Char)
deriving DecidableEq, Repr

/-- Result of running a handler: the requests it issued, the state it left
behind, and the effects it produced. -/
structure Run (σ : Type) where
  requests : List Request
  state : σ
  effects : List Effect
deriving DecidableEq, Repr

/-- JavaScript whitespace test used by `String.prototype.trim`. -/
def jsTrim (s : List Char) : List Char :=
  ((s.dropWhile Char.isWhitespace).reverse.dropWhile Char.isWhitespace).reverse

/-- `performSearch` (App.vue lines 59–77).  If the trimmed query is empty it
clears `results` and returns before issuing any request (and before touching
`loading`).  Otherwise it issues `GET /search?q=...`; on a response it
stores `response.data.results`; on a thrown error it logs and clears
`results`; either way the `finally` block resets `loading`. -/
def performSearch (q : List Char) (outcome : Except Unit (List SubRec))
    (st : AppState) : Run AppState :=
  if jsTrim q = [] then
    ⟨[], { st with results := [] }, []⟩
  else
    match outcome with
    | .ok rs => ⟨[.search q], { st with results := rs, loading := false }, []⟩
    | .error _ =>
        ⟨[.search q], { st with results := [], loading := false },
          [.consoleError]⟩

/-- A record has a case-insensitive match of `q` in its Chinese or English
text. -/
def recMatches (q : List Char) (r : SubRec) : Prop :=
  occursCI q r.chinese_text ∨ occursCI q r.english_text

/-- Modelled from the spec: the backend `GET /search` service (its FastAPI
source is not among the provided files).  Per the spec, a search "populates
results with entries whose chinese_text or english_text contains a
case-insensitive match of q": the corpus rows whose text fields match the
query case-insensitively. -/
def searchBackend (db : List SubRec) (q : List Char) : List SubRec :=
  db.filter (fun r => ciSub q r.chinese_text || ciSub q r.english_text)

/-- Shape of the `POST /api/generate_audio` response as the handler reads
it: `{success, audio_url, message}`. -/
structure AudioResponse where
  success : Bool
  audio_url : List Char
  message : List Char
deriving DecidableEq, Repr

/-- Shape of the `POST /api/generate_video` response as the handler reads
it: `{success, video_url, message}`. -/
structure VideoResponse where
  success : Bool
  video_url : List Char
  message : List Char
deriving DecidableEq, Repr

/-- `generateAudio` (ResultItem.vue lines 150–171): posts
`{season, episode, start_time, end_time}` of the record to
`/api/generate_audio`; on `success` stores `audio_url`, on `success: false`
alerts with `message || '生成音频失败'`, on a thrown error logs and alerts
the fallback; the `finally` block resets `generating`. -/
def generateAudio (r : SubRec) (outcome : Except Unit AudioResponse)
    (st : ItemState) : Run ItemState :=
  let req : Request :=
    .post "/api/generate_audio".data r.season r.episode r.start_time r.end_time
  match outcome with
  | .ok resp =>
      if resp.success then
        ⟨[req], { st with audioUrl := resp.audio_url, generating := false }, []⟩
      else
        ⟨[req], { st with generating := false },
          [.alertMsg (if resp.message = [] then "生成音频失败".data
            else resp.message)]⟩
  | .error _ =>
      ⟨[req], { st with generating := false },
        [.consoleError, .alertMsg "生成音频失败，请稍后重试".data]⟩

/-- `generateVideo` (ResultItem.vue lines 173–194): same shape as
`generateAudio` with `/api/generate_video`, `video_url`, the `videoUrl` ref
and the `generatingVideo` flag. -/
def generateVideo (r : SubRec) (outcome : Except Unit VideoResponse)
    (st : ItemState) : Run ItemState :=
  let req : Request :=
    .post "/api/generate_video".data r.season r.episode r.start_time r.end_time
  match outcome with
  | .ok resp =>
      if resp.success then
        ⟨[req], { st with videoUrl := resp.video_url, generatingVideo := false }, []⟩
      else
        ⟨[req], { st with generatingVideo := false },
          [.alertMsg (if resp.message = [] then "生成视频失败".data
            else resp.message)]⟩
  | .error _ =>
      ⟨[req], { st with generatingVideo := false },
        [.consoleError, .alertMsg "生成视频失败，请稍后重试".data]⟩

/-! ### vite dev-server proxy (vite.config.ts lines 15–29) -/

/-- One proxy rule of the vite config: matched path piece, target, and
whether a rewrite function is attached. -/
structure ProxyRule where
  route : List Char
  target : List Char
  hasRewrite : Bool
deriving DecidableEq, Repr

/-- The `server.proxy` table of `vite.config.ts` (lines 15–29): `/api` with
a rewrite, `/temp_audio` and `/temp_video` without, all targeting
`http://localhost:8000`. -/
def proxyRules : List ProxyRule :=
  [⟨"/api".data, "http://localhost:8000".data, true⟩,
   ⟨"/temp_audio".data, "http://localhost:8000".data, false⟩,
   ⟨"/temp_video".data, "http://localhost:8000".data, false⟩]

/-- The `/api` rewrite, `path.replace(/^\/api/, '')` (line 19): the regex is
anchored at the start, so when the path begins with `/api` those four
characters are removed, and otherwise the path is unchanged. -/
def apiRewrite (path : List Char) : List Char :=
  if rawPre "/api".data path then path.drop 4 else path

/-! ### Lemmas about the highlight scan -/

/-- Removing the inserted markers from every segment of the scan
reassembles the input text exactly, for any sufficient fuel. -/
theorem segsOfF_erase (q : List Char) :
    ∀ (fuel : Nat) (t : List Char), t.length ≤ fuel →
      (segsOfF q fuel t).flatMap eraseSeg = t := by
  intro fuel
  induction fuel with
  | zero =>
    intro t ht
    have h0 : t = [] := List.length_eq_zero.mp (Nat.le_zero.mp ht)
    subst h0; rfl
  | succ f ih =>
    intro t ht
    cases t with
    | nil => rfl
    | cons c rest =>
      have ht0 : rest.length ≤ f := by
        simp only [List.length_cons] at ht; omega
      rw [segsOfF]
      by_cases h : ciPre q (c :: rest) = true
      · have hd : (rest.drop (q.length - 1)).length ≤ f := by
          simp only [List.length_drop]; omega
        rw [if_pos h]
        simp only [List.flatMap_cons, eraseSeg]
        rw [ih _ hd, List.cons_append, List.take_append_drop]
      · rw [if_neg h]
        simp only [List.flatMap_cons, eraseSeg, List.singleton_append]
        rw [ih rest ht0]

/-- Removing the inserted markers from every segment of the scan
reassembles the input text exactly. -/
theorem segsOf_erase (q t : List Char) : (segsOf q t).flatMap eraseSeg = t :=
  segsOfF_erase q t.length t le_rfl

/-- A case-insensitive prefix match equates the lower-casings of the query
and of the matched-length slice of the text. -/
theorem ciPre_lc_take :
    ∀ q s : List Char, ciPre q s = true → lc (s.take q.length) = lc q := by
  intro q
  induction q with
  | nil => intro s _; simp [lc]
  | cons a as ih =>
    intro s hp
    cases s with
    | nil => simp [ciPre] at hp
    | cons b bs =>
      simp only [ciPre, Bool.and_eq_true, beq_iff_eq] at hp
      have ht := ih bs hp.2
      simp only [List.length_cons, List.take_succ_cons, lc, List.map_cons] at ht ⊢
      rw [← hp.1, ht]

/-- Every wrapped segment produced by the scan on a non-empty query is a
case-insensitive copy of the query (any fuel). -/
theorem segsOfF_wrapped_ci (q : List Char) (hq : q ≠ []) :
    ∀ (fuel : Nat) (t m : List Char),
      Seg.wrapped m ∈ segsOfF q fuel t → lc m = lc q := by
  intro fuel
  induction fuel with
  | zero =>
    intro t m hm
    cases t <;> simp [segsOfF] at hm
  | succ f ih =>
    intro t m hm
    cases t with
    | nil => simp [segsOfF] at hm
    | cons c rest =>
      rw [segsOfF] at hm
      by_cases h : ciPre q (c :: rest) = true
      · rw [if_pos h] at hm
        rcases List.mem_cons.mp hm with he | ht
        · have hlen : q.length - 1 + 1 = q.length := by
            cases q with
            | nil => exact absurd rfl hq
            | cons x xs => simp
          have hm2 : m = c :: List.take (q.length - 1) rest := by
            injection he
          have hts : c :: List.take (q.length - 1) rest
              = List.take q.length (c :: rest) := by
            rw [← hlen]; simp
          rw [hm2, hts]
          exact ciPre_lc_take q (c :: rest) h
        · exact ih _ m ht
      · rw [if_neg h] at hm
        rcases List.mem_cons.mp hm with he | ht
        · exact absurd he (by simp)
        · exact ih _ m ht

/-- Every wrapped segment of the scan is a case-insensitive copy of the
query. -/
theorem segsOf_wrapped_ci (q : List Char) (hq : q ≠ []) (t m : List Char)
    (hm : Seg.wrapped m ∈ segsOf q t) : lc m = lc q :=
  segsOfF_wrapped_ci q hq t.length t m hm

/-- A non-empty query is never a case-insensitive prefix of the empty
text. -/
theorem ciPre_nil_of_ne (q : List Char) (hq : q ≠ []) : ciPre q [] = false := by
  cases q with
  | nil => exact absurd rfl hq
  | cons a as => rfl

/-- If a non-empty query occurs case-insensitively anywhere in the text,
the scan (with sufficient fuel) wraps at least one block. -/
theorem segsOfF_occurs (q : List Char) (hq : q ≠ []) :
    ∀ (fuel : Nat) (t : List Char), t.length ≤ fuel → occursCI q t →
      ∃ m, Seg.wrapped m ∈ segsOfF q fuel t := by
  intro fuel
  induction fuel with
  | zero =>
    intro t ht hocc
    have h0 : t = [] := List.length_eq_zero.mp (Nat.le_zero.mp ht)
    subst h0
    obtain ⟨i, hi⟩ := hocc
    rw [List.drop_nil, ciPre_nil_of_ne q hq] at hi
    exact absurd hi (by simp)
  | succ f ih =>
    intro t ht hocc
    cases t with
    | nil =>
      obtain ⟨i, hi⟩ := hocc
      rw [List.drop_nil, ciPre_nil_of_ne q hq] at hi
      exact absurd hi (by simp)
    | cons c rest =>
      have ht0 : rest.length ≤ f := by
        simp only [List.length_cons] at ht; omega
      rw [segsOfF]
      by_cases h : ciPre q (c :: rest) = true
      · exact ⟨c :: rest.take (q.length - 1),
          by rw [if_pos h]; exact List.mem_cons_self _ _⟩
      · obtain ⟨i, hi⟩ := hocc
        cases i with
        | zero => rw [List.drop_zero] at hi; exact absurd hi h
        | succ j =>
          have hrest : occursCI q rest := ⟨j, by simpa using hi⟩
          obtain ⟨m, hm⟩ := ih rest ht0 hrest
          exact ⟨m, by rw [if_neg h]; exact List.mem_cons_of_mem _ hm⟩

/-- If a non-empty query occurs case-insensitively anywhere in the text,
the scan wraps at least one block. -/
theorem segsOf_occurs (q : List Char) (hq : q ≠ []) (t : List Char)
    (hocc : occursCI q t) : ∃ m, Seg.wrapped m ∈ segsOf q t :=
  segsOfF_occurs q hq t.length t le_rfl hocc

/-- The Boolean substring test agrees with the occurrence predicate. -/
theorem ciSub_iff_occursCI (q : List Char) :
    ∀ s, ciSub q s = true ↔ occursCI q s := by
  intro s
  induction s with
  | nil =>
    simp only [ciSub, occursCI]
    constructor
    · intro hp; exact ⟨0, by simpa using hp⟩
    · rintro ⟨i, hi⟩; simpa using hi
  | cons c rest ih =>
    simp only [ciSub, Bool.or_eq_true, ih, occursCI]
    constructor
    · rintro (hp | ⟨j, hj⟩)
      · exact ⟨0, by simpa using hp⟩
      · exact ⟨j + 1, by simpa using hj⟩
    · rintro ⟨i, hi⟩
      cases i with
      | zero => exact Or.inl (by simpa using hi)
      | succ j => exact Or.inr ⟨j, by simpa using hi⟩

/-- A list is an exact prefix of itself followed by anything. -/
theorem rawPre_self_append : ∀ a b : List Char, rawPre a (a ++ b) = true := by
  intro a b
  induction a with
  | nil => rfl
  | cons c a0 ih => simp [rawPre, ih]

/-! ### Lemmas about jsSplit -/

/-- `jsSplit` never returns the empty field list. -/
theorem jsSplit_ne_nil (sep : Char) : ∀ s, jsSplit sep s ≠ [] := by
  intro s
  induction s with
  | nil => simp [jsSplit]
  | cons c rest ih =>
    by_cases hc : c = sep
    · simp [jsSplit, hc]
    · rw [jsSplit, if_neg hc]
      cases hs : jsSplit sep rest with
      | nil => exact absurd hs ih
      | cons f fs => simp

/-- The number of fields is one more than the number of separators. -/
theorem jsSplit_length (sep : Char) :
    ∀ s : List Char, (jsSplit sep s).length = s.count sep + 1 := by
  intro s
  induction s with
  | nil => simp [jsSplit]
  | cons c rest ih =>
    by_cases hc : c = sep
    · subst hc
      simp [jsSplit, List.count_cons, ih]
    · rw [jsSplit, if_neg hc]
      cases hs : jsSplit sep rest with
      | nil => exact absurd hs (jsSplit_ne_nil sep rest)
      | cons f fs =>
        rw [hs] at ih
        simp only [List.length_cons] at ih ⊢
        rw [List.count_cons]
        simp [hc, ih]

/-- Splitting a separator-free string yields the single field holding it. -/
theorem jsSplit_not_mem (sep : Char) :
    ∀ s : List Char, sep ∉ s → jsSplit sep s = [s] := by
  intro s
  induction s with
  | nil => intro _; rfl
  | cons c rest ih =>
    intro hmem
    have hc : ¬c = sep := fun he => hmem (he ▸ List.mem_cons_self c rest)
    have hrest : sep ∉ rest := fun hr => hmem (List.mem_cons_of_mem c hr)
    rw [jsSplit, if_neg hc, ih hrest]

/-- Splitting at the first separator after a separator-free chunk. -/
theorem jsSplit_cat (sep : Char) (a b : List Char) (ha : sep ∉ a) :
    jsSplit sep (a ++ sep :: b) = a :: jsSplit sep b := by
  induction a with
  | nil => simp [jsSplit]
  | cons c a0 ih =>
    have hc : ¬c = sep := fun he => ha (he ▸ List.mem_cons_self c a0)
    have ha0 : sep ∉ a0 := fun hr => ha (List.mem_cons_of_mem c hr)
    rw [List.cons_append, jsSplit, if_neg hc, ih ha0]

/-! ### Claim theorems -/

/-- C1, counterexample: the claim fails as stated.  On text `"aaa"` and
query `"aa"` there are two case-insensitive occurrences of the query
(at indices 0 and 1), yet the output of `highlightText` contains a single
opening marker: the occurrence at index 1, overlapping the first match of
the global-replace scan, is not wrapped. -/
theorem highlightText_every_occurrence_cex :
    ciOccCount "aa".data "aaa".data = 2 ∧
    rawOccCount spanOpen (highlightText "aaa".data "aa".data) = 1 ∧
    highlightText "aaa".data "aa".data
      = ("<span class=\"highlight\">aa</span>a").data := by
  refine ⟨by decide, by decide, by decide⟩

/-- C1 (amended): for every text and non-empty query, `highlightText` is
the rendering of the left-to-right non-overlapping scan: every wrapped
block is a case-insensitive copy of the query, at least one block is
wrapped whenever the query occurs case-insensitively in the text, and
erasing the inserted markers (keeping each block's characters, which retain
their original casing) reassembles the text exactly, so every character
outside the wrapped blocks appears unchanged and in order. -/
theorem highlightText_scan_spec (text q : List Char) (hq : q ≠ []) :
    highlightText text q = (segsOf q text).flatMap renderSeg ∧
    (segsOf q text).flatMap eraseSeg = text ∧
    (∀ m, Seg.wrapped m ∈ segsOf q text → lc m = lc q) ∧
    (occursCI q text → ∃ m, Seg.wrapped m ∈ segsOf q text) := by
  refine ⟨?_, segsOf_erase q text,
    fun m => segsOf_wrapped_ci q hq text m, segsOf_occurs q hq text⟩
  by_cases ht : text = []
  · subst ht; simp [highlightText, segsOf, segsOfF]
  · rw [highlightText, if_neg (by simp [ht, hq])]

/-- Witness for C1's amended theorem at text `"aXa"`, query `"x"`. -/
theorem highlightText_scan_spec_wit :
    highlightText "aXa".data "x".data
        = (segsOf "x".data "aXa".data).flatMap renderSeg ∧
    (segsOf "x".data "aXa".data).flatMap eraseSeg = "aXa".data ∧
    (∀ m, Seg.wrapped m ∈ segsOf "x".data "aXa".data →
        lc m = lc "x".data) ∧
    (occursCI "x".data "aXa".data →
        ∃ m, Seg.wrapped m ∈ segsOf "x".data "aXa".data) :=
  highlightText_scan_spec "aXa".data "x".data (by decide)

/-- C9: `highlightText` is the identity when either argument is empty, and
for a non-empty query its output is the marker-rendering of the scan
segments, whose marker-erased rendering is exactly the input text — the
replacement reinserts the matched substring with its original casing, so
deleting the inserted markers recovers the text. -/
theorem highlightText_marker_strip (text q : List Char) :
    highlightText text [] = text ∧
    highlightText [] q = [] ∧
    (q ≠ [] →
      highlightText text q = (segsOf q text).flatMap renderSeg ∧
      (segsOf q text).flatMap eraseSeg = text) := by
  refine ⟨by simp [highlightText], by simp [highlightText],
    fun hq => ⟨?_, segsOf_erase q text⟩⟩
  by_cases ht : text = []
  · subst ht; simp [highlightText, segsOf, segsOfF]
  · rw [highlightText, if_neg (by simp [ht, hq])]

/-- Witness for C9's theorem at text `"ab"`, query `"b"`. -/
theorem highlightText_marker_strip_wit :
    highlightText "ab".data "b".data
        = (segsOf "b".data "ab".data).flatMap renderSeg ∧
    (segsOf "b".data "ab".data).flatMap eraseSeg = "ab".data :=
  (highlightText_marker_strip "ab".data "b".data).2.2 (by decide)

/-- C2: on an input of the shape `H:MM:SS.ms` — an hours field, a minutes
field and a seconds field separated by `:`, with a fractional part after
`.` in the seconds field and no stray separators inside the fields —
`formatTime` returns `MM:SS`: the minutes field, a colon, and the seconds
field with its fractional part removed. -/
theorem formatTime_hmmss (h mm ss ms : List Char)
    (h1 : ':' ∉ h) (h2 : ':' ∉ mm) (h3 : ':' ∉ ss) (h4 : ':' ∉ ms)
    (h5 : '.' ∉ ss) :
    formatTime (h ++ ':' :: (mm ++ ':' :: (ss ++ '.' :: ms)))
      = some (mm ++ ':' :: ss) := by
  have hlast : ':' ∉ ss ++ '.' :: ms := by
    intro hmem
    rcases List.mem_append.mp hmem with hx | hx
    · exact h3 hx
    · rcases List.mem_cons.mp hx with he | hx
      · exact absurd he (by decide)
      · exact h4 hx
  have e1 : jsSplit ':' (h ++ ':' :: (mm ++ ':' :: (ss ++ '.' :: ms)))
      = h :: mm :: [ss ++ '.' :: ms] := by
    rw [jsSplit_cat ':' h _ h1, jsSplit_cat ':' mm _ h2,
      jsSplit_not_mem ':' _ hlast]
  have e2 : jsSplit '.' (ss ++ '.' :: ms) = ss :: jsSplit '.' ms :=
    jsSplit_cat '.' ss ms h5
  simp [formatTime, e1, e2, firstField]

/-- Witness for C2's theorem at the spec's own example `0:03:11.39`. -/
theorem formatTime_hmmss_wit :
    formatTime "0:03:11.39".data = some "03:11".data := by
  have h := formatTime_hmmss "0".data "03".data "11".data "39".data
    (by decide) (by decide) (by decide) (by decide) (by decide)
  have e : "0".data ++ ':' :: ("03".data ++ ':' :: ("11".data ++ '.' :: "39".data))
      = "0:03:11.39".data := by decide
  have e2 : "03".data ++ ':' :: "11".data = "03:11".data := by decide
  rw [e, e2] at h
  exact h

/-- C5: `formatTime` is total exactly on inputs with zero or at least two
`:` separators — with no `:` it returns the input unchanged, with exactly
one `:` the access to the absent third field (`parts[2]` is `undefined`)
makes evaluation fail instead of returning a string, and with two or more
`:` it returns a string. -/
theorem formatTime_colon_arity (s : List Char) :
    (s.count ':' = 0 → formatTime s = some s) ∧
    (s.count ':' = 1 → formatTime s = none) ∧
    (2 ≤ s.count ':' → (formatTime s).isSome = true) := by
  refine ⟨?_, ?_, ?_⟩
  · intro h0
    have hmem : ':' ∉ s := List.count_eq_zero.mp h0
    simp [formatTime, jsSplit_not_mem ':' s hmem]
  · intro h1
    have hlen : (jsSplit ':' s).length = 2 := by
      rw [jsSplit_length ':' s, h1]
    obtain ⟨a, l1, e1⟩ := List.exists_cons_of_ne_nil (jsSplit_ne_nil ':' s)
    rw [e1] at hlen
    simp only [List.length_cons] at hlen
    have hl1 : l1.length = 1 := by omega
    obtain ⟨b, l2, e2⟩ :=
      List.exists_cons_of_ne_nil (List.length_pos.mp (by omega : 0 < l1.length))
    rw [e2] at hl1
    simp only [List.length_cons] at hl1
    have hl2 : l2 = [] := List.length_eq_zero.mp (by omega)
    subst hl2
    rw [e2] at e1
    simp [formatTime, e1]
  · intro h2
    have hlen : 3 ≤ (jsSplit ':' s).length := by
      rw [jsSplit_length ':' s]; omega
    obtain ⟨a, l1, e1⟩ := List.exists_cons_of_ne_nil (jsSplit_ne_nil ':' s)
    rw [e1] at hlen
    simp only [List.length_cons] at hlen
    obtain ⟨b, l2, e2⟩ :=
      List.exists_cons_of_ne_nil (List.length_pos.mp (by omega : 0 < l1.length))
    rw [e2] at hlen
    simp only [List.length_cons] at hlen
    obtain ⟨c, l3, e3⟩ :=
      List.exists_cons_of_ne_nil (List.length_pos.mp (by omega : 0 < l2.length))
    rw [e3] at e2
    rw [e2] at e1
    simp [formatTime, e1]

/-- Witness for C5's theorem at `"ab"`, `"a:b"` and `"0:1:2"`. -/
theorem formatTime_colon_arity_wit :
    formatTime "ab".data = some "ab".data ∧
    formatTime "a:b".data = none ∧
    (formatTime "0:1:2".data).isSome = true :=
  ⟨(formatTime_colon_arity "ab".data).1 (by decide),
   (formatTime_colon_arity "a:b".data).2.1 (by decide),
   (formatTime_colon_arity "0:1:2".data).2.2 (by decide)⟩

/-- C3: a search run either populates `results` with records whose Chinese
or English text contains a case-insensitive match of the query, or leaves
`results` empty: with the spec-modelled backend every stored record
matches, an empty or whitespace-only query always yields `results = []`,
and a thrown request yields `results = []`. -/
theorem performSearch_results_spec (q : List Char) (db : List SubRec)
    (st : AppState) :
    (∀ r ∈ (performSearch q (.ok (searchBackend db q)) st).state.results,
      recMatches q r) ∧
    (jsTrim q = [] →
      ∀ out : Except Unit (List SubRec),
        (performSearch q out st).state.results = []) ∧
    (performSearch q (.error ()) st).state.results = [] := by
  refine ⟨?_, ?_, ?_⟩
  · intro r hr
    by_cases hq : jsTrim q = []
    · simp [performSearch, hq] at hr
    · simp only [performSearch, if_neg hq] at hr
      have h2 := (List.mem_filter.mp hr).2
      simp only [Bool.or_eq_true] at h2
      rcases h2 with hc | he
      · exact Or.inl ((ciSub_iff_occursCI q r.chinese_text).mp hc)
      · exact Or.inr ((ciSub_iff_occursCI q r.english_text).mp he)
  · intro hq out
    cases out <;> simp [performSearch, hq]
  · by_cases hq : jsTrim q = [] <;> simp [performSearch, hq]

/-- Witness for C3's theorem at a concrete query, corpus and state. -/
theorem performSearch_results_spec_wit :
    recMatches "he".data
      ⟨5, 1, "0:03:11.39".data, "0:03:14.36".data, "你好".data,
        "Hello there".data⟩ ∧
    (performSearch "  ".data (.ok []) ⟨[], true⟩).state.results = [] ∧
    (performSearch "he".data (.error ()) ⟨[], true⟩).state.results = [] :=
  ⟨(performSearch_results_spec "he".data
      [⟨5, 1, "0:03:11.39".data, "0:03:14.36".data, "你好".data,
        "Hello there".data⟩] ⟨[], true⟩).1 _ (by decide),
   (performSearch_results_spec "  ".data [] ⟨[], true⟩).2.1 (by decide)
     (.ok []),
   (performSearch_results_spec "he".data [] ⟨[], true⟩).2.2⟩

/-- C4, counterexample: the claim fails as stated for `performSearch` — on
a thrown request it issues exactly the one search request, logs to the
console and clears the results, but calls no alert. -/
theorem performSearch_alert_cex :
    alertsOf (performSearch "hi".data (.error ()) ⟨[], false⟩).effects
        = [] ∧
    (performSearch "hi".data (.error ()) ⟨[], false⟩).requests
        = [.search "hi".data] ∧
    (performSearch "hi".data (.error ()) ⟨[], false⟩).effects
        = [.consoleError] := by
  refine ⟨by decide, by decide, by decide⟩

/-- C4 (amended): `generateAudio` and `generateVideo` surface every
failure as a user-facing alert — with the response message, or the
fallback when that message is empty, in the `success: false` branch, and
with the fallback in the catch branch — while `performSearch` surfaces no
alert on a failed request: it only logs to the console. -/
theorem alert_on_failure_spec (q : List Char) (st : AppState) (r : SubRec)
    (ist : ItemState) (ar : AudioResponse) (vr : VideoResponse) :
    alertsOf (performSearch q (.error ()) st).effects = [] ∧
    (ar.success = false →
      alertsOf (generateAudio r (.ok ar) ist).effects
        = [if ar.message = [] then "生成音频失败".data else ar.message]) ∧
    alertsOf (generateAudio r (.error ()) ist).effects
      = ["生成音频失败，请稍后重试".data] ∧
    (vr.success = false →
      alertsOf (generateVideo r (.ok vr) ist).effects
        = [if vr.message = [] then "生成视频失败".data else vr.message]) ∧
    alertsOf (generateVideo r (.error ()) ist).effects
      = ["生成视频失败，请稍后重试".data] := by
  refine ⟨?_, ?_, ?_, ?_, ?_⟩
  · by_cases hq : jsTrim q = [] <;> simp [performSearch, hq, alertsOf]
  · intro hs
    by_cases hm : ar.message = [] <;>
      simp [generateAudio, hs, hm, alertsOf]
  · simp [generateAudio, alertsOf]
  · intro hs
    by_cases hm : vr.message = [] <;>
      simp [generateVideo, hs, hm, alertsOf]
  · simp [generateVideo, alertsOf]

/-- Witness for C4's amended theorem at concrete failing runs. -/
theorem alert_on_failure_spec_wit :
    alertsOf (performSearch "hi".data (.error ()) ⟨[], false⟩).effects
        = [] ∧
    alertsOf (generateAudio
        ⟨5, 1, "0:03:11.39".data, "0:03:14.36".data, [], []⟩
        (.ok ⟨false, [], []⟩) ⟨[], true, [], false⟩).effects
      = [if ([] : List Char) = [] then "生成音频失败".data
          else ([] : List Char)] ∧
    alertsOf (generateVideo
        ⟨5, 1, "0:03:11.39".data, "0:03:14.36".data, [], []⟩
        (.ok ⟨false, [], "no clip".data⟩) ⟨[], false, [], true⟩).effects
      = [if ("no clip".data : List Char) = [] then "生成视频失败".data
          else ("no clip".data : List Char)] :=
  ⟨(alert_on_failure_spec "hi".data ⟨[], false⟩
      ⟨5, 1, "0:03:11.39".data, "0:03:14.36".data, [], []⟩
      ⟨[], true, [], false⟩ ⟨false, [], []⟩ ⟨false, [], "no clip".data⟩).1,
   (alert_on_failure_spec "hi".data ⟨[], false⟩
      ⟨5, 1, "0:03:11.39".data, "0:03:14.36".data, [], []⟩
      ⟨[], true, [], false⟩ ⟨false, [], []⟩
      ⟨false, [], "no clip".data⟩).2.1 rfl,
   (alert_on_failure_spec "hi".data ⟨[], false⟩
      ⟨5, 1, "0:03:11.39".data, "0:03:14.36".data, [], []⟩
      ⟨[], false, [], true⟩ ⟨false, [], []⟩
      ⟨false, [], "no clip".data⟩).2.2.2.1 rfl⟩

/-- C6: each generation handler issues a single POST — to
`/api/generate_audio` resp. `/api/generate_video` — whose body is exactly
`{season, episode, start_time, end_time}` copied from the record, and on a
`success: true` response `audioUrl` resp. `videoUrl` is set to the
response's `audio_url` resp. `video_url` field. -/
theorem generate_request_spec (r : SubRec) (st : ItemState)
    (oa : Except Unit AudioResponse) (ov : Except Unit VideoResponse)
    (ar : AudioResponse) (vr : VideoResponse) :
    (generateAudio r oa st).requests
      = [.post "/api/generate_audio".data r.season r.episode
          r.start_time r.end_time] ∧
    (generateVideo r ov st).requests
      = [.post "/api/generate_video".data r.season r.episode
          r.start_time r.end_time] ∧
    (ar.success = true →
      (generateAudio r (.ok ar) st).state.audioUrl = ar.audio_url) ∧
    (vr.success = true →
      (generateVideo r (.ok vr) st).state.videoUrl = vr.video_url) := by
  refine ⟨?_, ?_, ?_, ?_⟩
  · cases oa with
    | ok resp => by_cases hs : resp.success <;> simp [generateAudio, hs]
    | error e => simp [generateAudio]
  · cases ov with
    | ok resp => by_cases hs : resp.success <;> simp [generateVideo, hs]
    | error e => simp [generateVideo]
  · intro hs; simp [generateAudio, hs]
  · intro hs; simp [generateVideo, hs]

/-- Witness for C6's theorem at a concrete record and responses. -/
theorem generate_request_spec_wit :
    (generateAudio ⟨5, 1, "0:03:11.39".data, "0:03:14.36".data, [], []⟩
        (.ok ⟨true, "/temp_audio/a.mp3".data, []⟩)
        ⟨[], true, [], false⟩).requests
      = [.post "/api/generate_audio".data 5 1
          "0:03:11.39".data "0:03:14.36".data] ∧
    (generateAudio ⟨5, 1, "0:03:11.39".data, "0:03:14.36".data, [], []⟩
        (.ok ⟨true, "/temp_audio/a.mp3".data, []⟩)
        ⟨[], true, [], false⟩).state.audioUrl = "/temp_audio/a.mp3".data ∧
    (generateVideo ⟨5, 1, "0:03:11.39".data, "0:03:14.36".data, [], []⟩
        (.ok ⟨true, "/temp_video/v.mp4".data, []⟩)
        ⟨[], false, [], true⟩).state.videoUrl = "/temp_video/v.mp4".data :=
  ⟨(generate_request_spec ⟨5, 1, "0:03:11.39".data, "0:03:14.36".data, [], []⟩
      ⟨[], true, [], false⟩ (.ok ⟨true, "/temp_audio/a.mp3".data, []⟩)
      (.ok ⟨true, "/temp_video/v.mp4".data, []⟩)
      ⟨true, "/temp_audio/a.mp3".data, []⟩
      ⟨true, "/temp_video/v.mp4".data, []⟩).1,
   (generate_request_spec ⟨5, 1, "0:03:11.39".data, "0:03:14.36".data, [], []⟩
      ⟨[], true, [], false⟩ (.ok ⟨true, "/temp_audio/a.mp3".data, []⟩)
      (.ok ⟨true, "/temp_video/v.mp4".data, []⟩)
      ⟨true, "/temp_audio/a.mp3".data, []⟩
      ⟨true, "/temp_video/v.mp4".data, []⟩).2.2.1 rfl,
   (generate_request_spec ⟨5, 1, "0:03:11.39".data, "0:03:14.36".data, [], []⟩
      ⟨[], false, [], true⟩ (.ok ⟨true, "/temp_audio/a.mp3".data, []⟩)
      (.ok ⟨true, "/temp_video/v.mp4".data, []⟩)
      ⟨true, "/temp_audio/a.mp3".data, []⟩
      ⟨true, "/temp_video/v.mp4".data, []⟩).2.2.2 rfl⟩

/-- C7: the dev-server proxy table forwards exactly `/api`, `/temp_audio`
and `/temp_video` to `http://localhost:8000`, with a rewrite attached only
to `/api`; the rewrite removes a leading `/api` and leaves every path not
beginning with `/api` unchanged. -/
theorem proxy_config_spec (p rest : List Char) :
    (proxyRules.map fun pr => (pr.route, pr.target, pr.hasRewrite))
      = [("/api".data, "http://localhost:8000".data, true),
         ("/temp_audio".data, "http://localhost:8000".data, false),
         ("/temp_video".data, "http://localhost:8000".data, false)] ∧
    apiRewrite ("/api".data ++ rest) = rest ∧
    (rawPre "/api".data p = false → apiRewrite p = p) := by
  refine ⟨by decide, ?_, ?_⟩
  · rw [apiRewrite, if_pos (rawPre_self_append "/api".data rest)]
    have h4 : ("/api".data).length = 4 := rfl
    rw [← h4, List.drop_left]
  · intro hfalse
    rw [apiRewrite, if_neg (by simp [hfalse])]

/-- Witness for C7's theorem at `/api/generate_audio` and
`/temp_audio/a.mp3`. -/
theorem proxy_config_spec_wit :
    apiRewrite ("/api".data ++ "/generate_audio".data)
      = "/generate_audio".data ∧
    apiRewrite "/temp_audio/a.mp3".data = "/temp_audio/a.mp3".data :=
  ⟨(proxy_config_spec "/temp_audio/a.mp3".data "/generate_audio".data).2.1,
   (proxy_config_spec "/temp_audio/a.mp3".data
      "/generate_audio".data).2.2 (by decide)⟩

/-- C8: no handler retries — a `performSearch` invocation issues at most
one HTTP request (none on the empty-query early return), and a
`generateAudio` or `generateVideo` invocation issues exactly one, in every
outcome including exceptions and non-success responses. -/
theorem single_request_spec (q : List Char)
    (so : Except Unit (List SubRec)) (st : AppState) (r : SubRec)
    (oa : Except Unit AudioResponse) (ov : Except Unit VideoResponse)
    (ist : ItemState) :
    (performSearch q so st).requests.length ≤ 1 ∧
    (generateAudio r oa ist).requests.length = 1 ∧
    (generateVideo r ov ist).requests.length = 1 := by
  refine ⟨?_, ?_, ?_⟩
  · by_cases hq : jsTrim q = []
    · simp [performSearch, hq]
    · cases so <;> simp [performSearch, hq]
  · cases oa with
    | ok resp => by_cases hs : resp.success <;> simp [generateAudio, hs]
    | error e => simp [generateAudio]
  · cases ov with
    | ok resp => by_cases hs : resp.success <;> simp [generateVideo, hs]
    | error e => simp [generateVideo]

/-- C10: every handler's busy flag is reset once the run finishes,
whatever the outcome: `loading` is false after any `performSearch` run
past the empty-query early return, and `generating` resp.
`generatingVideo` is false after any `generateAudio` resp. `generateVideo`
run. -/
theorem busy_flag_reset_spec (q : List Char)
    (so : Except Unit (List SubRec)) (st : AppState) (r : SubRec)
    (oa : Except Unit AudioResponse) (ov : Except Unit VideoResponse)
    (ist : ItemState) :
    (jsTrim q ≠ [] → (performSearch q so st).state.loading = false) ∧
    (generateAudio r oa ist).state.generating = false ∧
    (generateVideo r ov ist).state.generatingVideo = false := by
  refine ⟨?_, ?_, ?_⟩
  · intro hq; cases so <;> simp [performSearch, hq]
  · cases oa with
    | ok resp => by_cases hs : resp.success <;> simp [generateAudio, hs]
    | error e => simp [generateAudio]
  · cases ov with
    | ok resp => by_cases hs : resp.success <;> simp [generateVideo, hs]
    | error e => simp [generateVideo]

/-- Witness for C10's theorem at concrete runs that start busy. -/
theorem busy_flag_reset_spec_wit :
    (performSearch "a".data (.ok []) ⟨[], true⟩).state.loading = false ∧
    (generateAudio ⟨5, 1, "0:03:11.39".data, "0:03:14.36".data, [], []⟩
        (.error ()) ⟨[], true, [], true⟩).state.generating = false ∧
    (generateVideo ⟨5, 1, "0:03:11.39".data, "0:03:14.36".data, [], []⟩
        (.error ()) ⟨[], true, [], true⟩).state.generatingVideo = false :=
  ⟨(busy_flag_reset_spec "a".data (.ok []) ⟨[], true⟩
      ⟨5, 1, "0:03:11.39".data, "0:03:14.36".data, [], []⟩
      (.error ()) (.error ()) ⟨[], true, [], true⟩).1 (by decide),
   (busy_flag_reset_spec "a".data (.ok []) ⟨[], true⟩
      ⟨5, 1, "0:03:11.39".data, "0:03:14.36".data, [], []⟩
      (.error ()) (.error ()) ⟨[], true, [], true⟩).2.1,
   (busy_flag_reset_spec "a".data (.ok []) ⟨[], true⟩
      ⟨5, 1, "0:03:11.39".data, "0:03:14.36".data, [], []⟩
      (.error ()) (.error ()) ⟨[], true, [], true⟩).2.2⟩

end Subtitles
